import Mathlib

/-!
Verification of the stack-comparison tool `stackcmp.py`.

We shallowly embed the data model and operations of the tool:
the stack-offset extractor (a faithful model of the regex
`(?P<register>e[sb]p)\s(?P<sign>[+-])\s(?P<offset>(0x)?[0-9a-f]+)(?![0-9a-f])`
under `re.search` semantics), the diff reconciler `analyze_diff`,
the pair-collection loop of `compare_function_stacks`, the symbol
enrichment loop, and the two report views `print_by_original_stack`
and `print_by_recomp_stack` together with the warning flags.

Python sets of pairs are modelled as insertion-ordered lists without
duplicates (duplicates under the tool's `__eq__`, which compares
register and offset and ignores the attached symbol); printing is
modelled as producing structured report entries.
-/

namespace Stackcmp

/-- The `StackSymbol` dataclass: a debug symbol name and declared type. -/
structure StackSymbol where
  name : String
  data_type : String
deriving DecidableEq

/-- The `StackRegisterOffset` dataclass: register name, signed byte offset,
and an optional attached debug symbol. -/
structure StackRegisterOffset where
  register : String
  offset : Int
  symbol : Option StackSymbol := none
deriving DecidableEq

/-- Model of `StackRegisterOffset.copy`: a field-for-field copy of the dataclass. -/
def StackRegisterOffset.copy (x : StackRegisterOffset) : StackRegisterOffset :=
  ⟨x.register, x.offset, x.symbol⟩

/-- The tool's `StackRegisterOffset.__eq__`: equality on register and
offset only, ignoring the attached symbol. -/
def sroEq (a b : StackRegisterOffset) : Bool :=
  a.register == b.register && a.offset == b.offset

/-- The `StackPair` named tuple: an (orig, recomp) pair of stack references. -/
structure StackPair where
  orig : StackRegisterOffset
  recomp : StackRegisterOffset
deriving DecidableEq

/-- Equality of pairs as Python computes it for set membership:
componentwise `StackRegisterOffset.__eq__`. -/
def pairEq (p q : StackPair) : Bool :=
  sroEq p.orig q.orig && sroEq p.recomp q.recomp

/-- The type `StackPairs = set[StackPair]` modelled as an insertion-ordered list. -/
def StackPairs := List StackPair

/-- Set membership under the tool's pair equality. -/
def memPair (l : List StackPair) (p : StackPair) : Bool :=
  l.any (fun q => pairEq q p)

/-- Model of `set.add`: append unless an equal pair is already present. -/
def addPair (l : List StackPair) (p : StackPair) : List StackPair :=
  if memPair l p then l else l ++ [p]

/-- Model of `set.union`: add all elements of `b` to `a`. -/
def unionPairs (a b : List StackPair) : List StackPair :=
  b.foldl addPair a

/-- The `Warnings` dataclass: two boolean flags. -/
structure Warnings where
  structural_mismatches_present : Bool := false
  error_map_not_bijective : Bool := false
deriving DecidableEq

/-- Fresh `Warnings()` with both flags clear. -/
def Warnings.init : Warnings := ⟨false, false⟩

/-- Pointwise disjunction of warning flags (used to state that the code
only ever raises flags, never clears them). -/
def mergeW (w v : Warnings) : Warnings :=
  ⟨w.structural_mismatches_present || v.structural_mismatches_present,
   w.error_map_not_bijective || v.error_map_not_bijective⟩

/-! ### Offset extractor -/

/-- Python's `\s` on the ASCII range. -/
def isSpaceChar (c : Char) : Bool :=
  c == ' ' || c == '\t' || c == '\n' || c == '\r' || c == '\x0b' || c == '\x0c'

/-- The character class `[0-9a-f]` of the regex (lowercase only). -/
def isHexLower (c : Char) : Bool :=
  ('0' ≤ c && c ≤ '9') || ('a' ≤ c && c ≤ 'f')

/-- Numeric value of one `[0-9a-f]` digit. -/
def hexVal (c : Char) : Nat :=
  if c ≤ '9' then c.toNat - '0'.toNat else c.toNat - 'a'.toNat + 10

/-- Numeric value of a hex digit string (most significant first). -/
def hexValue (ds : List Char) : Nat :=
  ds.foldl (fun acc c => 16 * acc + hexVal c) 0

/-- Match of `(0x)?[0-9a-f]+(?![0-9a-f])` at the start of `rest`,
returning the digits (without any `0x` prefix).  The quantifiers are
greedy with backtracking: first try to consume `0x` and a maximal digit
run; the negative lookahead always holds for a maximal run, so the only
backtracking point is the optional `0x` group. -/
def matchOffsetPart (rest : List Char) : Option (List Char) :=
  match rest with
  | '0' :: 'x' :: rest2 =>
      let ds := rest2.takeWhile isHexLower
      if ds.isEmpty then
        let ds2 := rest.takeWhile isHexLower
        if ds2.isEmpty then none else some ds2
      else some ds
  | _ =>
      let ds := rest.takeWhile isHexLower
      if ds.isEmpty then none else some ds

/-- Match of the full `STACK_ENTRY_REGEX` anchored at the start of `cs`:
`e[sb]p`, one whitespace, `+` or `-`, one whitespace, then the offset
literal.  On success, builds the `StackRegisterOffset` exactly as
`extract_stack_offset_from_instruction` does via
`int(sign + offset, 16)`. -/
def matchStackEntry (cs : List Char) : Option StackRegisterOffset :=
  match cs with
  | c1 :: r :: c3 :: s1 :: sg :: s2 :: rest =>
      if c1 == 'e' && (r == 's' || r == 'b') && c3 == 'p' && isSpaceChar s1
          && (sg == '+' || sg == '-') && isSpaceChar s2 then
        match matchOffsetPart rest with
        | some ds =>
            some ⟨if r == 's' then "esp" else "ebp",
                  if sg == '+' then (Int.ofNat (hexValue ds))
                  else -(Int.ofNat (hexValue ds)), none⟩
        | none => none
      else none
  | _ => none

/-- Model of `re.search`: try the anchored match at each position, left to right. -/
def searchStackEntry : List Char → Option StackRegisterOffset
  | [] => none
  | c :: rest =>
      match matchStackEntry (c :: rest) with
      | some m => some m
      | none => searchStackEntry rest

/-- Model of `extract_stack_offset_from_instruction`: search the instruction text
for the stack-entry pattern; `None` if it does not occur. -/
def extract_stack_offset_from_instruction (instruction : String) :
    Option StackRegisterOffset :=
  searchStackEntry instruction.data

/-- Python's substring test `needle in hay` on character lists. -/
def hasSubstring (needle : List Char) : List Char → Bool
  | [] => needle.isPrefixOf []
  | c :: rest => needle.isPrefixOf (c :: rest) || hasSubstring needle rest

/-! ### Diff reconciler -/

/-- A diff region: either an aligned block (`"both" in diff`), whose lines
are `(orig addr, instruction, recomp addr)` triples, or a divergent block
with separate `orig` / `recomp` line lists of `(addr, instruction)` pairs. -/
inductive MatchingOrMismatchingBlock where
  | both (lines : List (String × String × String))
  | mismatch (orig recomp : List (String × String)) : MatchingOrMismatchingBlock
deriving DecidableEq

/-- The positional loop of `analyze_diff` over `zip(orig, recomp)` in an
equal-length divergent region: extract from the original line; if the
same-position recomp line yields nothing, the whole region is abandoned
(`return set()`) with the structural-mismatch flag raised. -/
def analyze_divergent_lines :
    List ((String × String) × (String × String)) → List StackPair → Warnings →
    List StackPair × Warnings
  | [], acc, w => (acc, w)
  | (orig_line, recomp_line) :: rest, acc, w =>
      match extract_stack_offset_from_instruction orig_line.2 with
      | some orig_match =>
          match extract_stack_offset_from_instruction recomp_line.2 with
          | none => ([], { w with structural_mismatches_present := true })
          | some recomp_match =>
              analyze_divergent_lines rest (addPair acc ⟨orig_match, recomp_match⟩) w
      | none => analyze_divergent_lines rest acc w

/-- Model of `analyze_diff`: one diff region to a set of stack pairs, raising
warning flags.  For an aligned region, the single shared instruction text
`line[1]` is extracted and paired with a copy of itself.  For a divergent
region of unequal side lengths, the region contributes nothing and the
structural-mismatch flag is raised; otherwise the two sides are paired
positionally. -/
def analyze_diff (diff : MatchingOrMismatchingBlock) (warnings : Warnings) :
    List StackPair × Warnings :=
  match diff with
  | .both lines =>
      (lines.foldl (fun acc line =>
        match extract_stack_offset_from_instruction line.2.1 with
        | some m => addPair acc ⟨m, m.copy⟩
        | none => acc) [], warnings)
  | .mismatch orig recomp =>
      if orig.length ≠ recomp.length then
        ([], { warnings with structural_mismatches_present := true })
      else
        analyze_divergent_lines (orig.zip recomp) [] warnings

/-- The pair-collection loop of `compare_function_stacks`: union the
per-region sets of `analyze_diff` over all regions, threading warnings. -/
def collect_stack_pairs :
    List MatchingOrMismatchingBlock → List StackPair → Warnings →
    List StackPair × Warnings
  | [], acc, w => (acc, w)
  | d :: rest, acc, w =>
      collect_stack_pairs rest (unionPairs acc (analyze_diff d w).1) (analyze_diff d w).2

/-! ### Symbol enricher -/

/-- Model of `dict.get` on the stack-symbol table keyed by signed offset. -/
def lookupSym (stack_symbols : List (Int × StackSymbol)) (off : Int) :
    Option StackSymbol :=
  (stack_symbols.find? (fun e => e.1 == off)).map (fun e => e.2)

/-- One step of the enrichment loop of `compare_function_stacks`: on a
frame-base (`ebp`) recomp reference, set its symbol from the table (to
`None` when absent, as `dict.get` does); stack-pointer (`esp`) recomp
references are left untouched. -/
def enrich_pair (stack_symbols : List (Int × StackSymbol)) (p : StackPair) :
    StackPair :=
  if p.recomp.register == "ebp" then
    ⟨p.orig, ⟨p.recomp.register, p.recomp.offset, lookupSym stack_symbols p.recomp.offset⟩⟩
  else p

/-- The enrichment loop over all collected pairs. -/
def enrich_stack_pairs (pairs : List StackPair)
    (stack_symbols : List (Int × StackSymbol)) : List StackPair :=
  pairs.map (enrich_pair stack_symbols)

/-- The register/offset data of a pair, ignoring attached symbols. -/
def pairData (p : StackPair) : (String × Int) × (String × Int) :=
  ((p.orig.register, p.orig.offset), (p.recomp.register, p.recomp.offset))

/-! ### Classifier and reporter -/

/-- Insert into a `≤`-sorted list of offsets. -/
def insertSorted (x : Int) : List Int → List Int
  | [] => [x]
  | y :: ys => if x ≤ y then x :: y :: ys else y :: insertSorted x ys

/-- Model of `sorted` on a list of offsets (insertion sort). -/
def sortInts : List Int → List Int :=
  List.foldr insertSorted []

/-- Distinct elements of an offset list (`set(...)`). -/
def dedupInts : List Int → List Int
  | [] => []
  | x :: rest => if x ∈ rest then dedupInts rest else x :: dedupInts rest

/-- One line of the by-original report: a 1:1 match printed with the
check (exact) or swap (reordered) icon, or a non-bijective match printed
with the error icon and all recomp candidates. -/
inductive OrigReportEntry where
  | bijective (orig recomp : StackRegisterOffset) (exact : Bool)
  | nonBijective (orig : StackRegisterOffset) (recomps : List StackRegisterOffset)
deriving DecidableEq

/-- One line of the by-recomp report: additionally the "not seen" case
for offsets present only in the debug symbols. -/
inductive RecompReportEntry where
  | unseen (entry : StackRegisterOffset)
  | bijective (orig recomp : StackRegisterOffset) (exact : Bool)
  | nonBijective (origs : List StackRegisterOffset) (recomp : StackRegisterOffset)
deriving DecidableEq

/-- The loop body of `print_by_original_stack` over the sorted distinct
original offsets: `next(...)` picks the first pair at the offset, the
candidates are all recomp sides of pairs whose orig equals that
reference, and more than one candidate raises the non-bijective flag. -/
def origLoop (pairs : List StackPair) :
    List Int → Warnings → List OrigReportEntry × Warnings
  | [], w => ([], w)
  | off :: rest, w =>
      match pairs.find? (fun x => x.orig.offset == off) with
      | none => origLoop pairs rest w
      | some x0 =>
          match (pairs.filter (fun x => sroEq x.orig x0.orig)).map (fun x => x.recomp) with
          | [recomp] =>
              (.bijective x0.orig recomp (sroEq x0.orig recomp) :: (origLoop pairs rest w).1,
               (origLoop pairs rest w).2)
          | recomps =>
              (.nonBijective x0.orig recomps ::
                 (origLoop pairs rest { w with error_map_not_bijective := true }).1,
               (origLoop pairs rest { w with error_map_not_bijective := true }).2)

/-- Model of `print_by_original_stack`: iterate the sorted distinct original-side
offsets. -/
def print_by_original_stack (pairs : List StackPair) (warnings : Warnings) :
    List OrigReportEntry × Warnings :=
  origLoop pairs (sortInts (dedupInts (pairs.map (fun x => x.orig.offset)))) warnings

/-- The loop body of `print_by_recomp_stack` over the sorted distinct
union of recomp-side offsets and symbol-table keys: an offset in no pair
becomes a "not seen" entry carrying the symbol; otherwise as in the
by-original view with the two sides swapped. -/
def recompLoop (pairs : List StackPair) (stack_symbols : List (Int × StackSymbol)) :
    List Int → Warnings → List RecompReportEntry × Warnings
  | [], w => ([], w)
  | off :: rest, w =>
      match pairs.find? (fun x => x.recomp.offset == off) with
      | none =>
          (.unseen ⟨"ebp", off, lookupSym stack_symbols off⟩ ::
             (recompLoop pairs stack_symbols rest w).1,
           (recompLoop pairs stack_symbols rest w).2)
      | some x0 =>
          match (pairs.filter (fun x => sroEq x.recomp x0.recomp)).map (fun x => x.orig) with
          | [o] =>
              (.bijective o x0.recomp (sroEq o x0.recomp) ::
                 (recompLoop pairs stack_symbols rest w).1,
               (recompLoop pairs stack_symbols rest w).2)
          | origs =>
              (.nonBijective origs x0.recomp ::
                 (recompLoop pairs stack_symbols rest { w with error_map_not_bijective := true }).1,
               (recompLoop pairs stack_symbols rest { w with error_map_not_bijective := true }).2)

/-- Model of `print_by_recomp_stack`: iterate the sorted distinct union of
recomp-side offsets and the symbol-table keys. -/
def print_by_recomp_stack (pairs : List StackPair)
    (stack_symbols : List (Int × StackSymbol)) (warnings : Warnings) :
    List RecompReportEntry × Warnings :=
  recompLoop pairs stack_symbols
    (sortInts (dedupInts (pairs.map (fun x => x.recomp.offset) ++ stack_symbols.map (fun e => e.1))))
    warnings

/-- The final summary of `print_footer`: hard error on non-bijectivity,
else a warning on structural mismatches, else nothing. -/
inductive FooterMessage where
  | errorNotBijective
  | warningStructuralMismatch
  | noWarning
deriving DecidableEq

/-- Model of `print_footer`, reduced to which summary message is emitted. -/
def print_footer (warnings : Warnings) : FooterMessage :=
  if warnings.error_map_not_bijective then .errorNotBijective
  else if warnings.structural_mismatches_present then .warningStructuralMismatch
  else .noWarning

/-- The full textual report of one classifier-and-reporter run. -/
structure Report where
  by_original : List OrigReportEntry
  by_recomp : List RecompReportEntry
  footer : FooterMessage
deriving DecidableEq

/-- The classifier-and-reporter stage at the end of
`compare_function_stacks`: both views in order, then the footer, with
the warnings threaded through. -/
def classifier_reporter (pairs : List StackPair)
    (stack_symbols : List (Int × StackSymbol)) (warnings : Warnings) :
    Report × Warnings :=
  let r1 := print_by_original_stack pairs warnings
  let r2 := print_by_recomp_stack pairs stack_symbols r1.2
  (⟨r1.1, r2.1, print_footer r2.2⟩, r2.2)

/-- The per-offset entry of the by-original view (proved below to
characterise `origLoop`'s output). -/
def origEntryAt (pairs : List StackPair) (off : Int) : Option OrigReportEntry :=
  match pairs.find? (fun x => x.orig.offset == off) with
  | none => none
  | some x0 =>
      match (pairs.filter (fun x => sroEq x.orig x0.orig)).map (fun x => x.recomp) with
      | [recomp] => some (.bijective x0.orig recomp (sroEq x0.orig recomp))
      | recomps => some (.nonBijective x0.orig recomps)

/-- The per-offset entry of the by-recomp view. -/
def recompEntryAt (pairs : List StackPair)
    (stack_symbols : List (Int × StackSymbol)) (off : Int) : RecompReportEntry :=
  match pairs.find? (fun x => x.recomp.offset == off) with
  | none => .unseen ⟨"ebp", off, lookupSym stack_symbols off⟩
  | some x0 =>
      match (pairs.filter (fun x => sroEq x.recomp x0.recomp)).map (fun x => x.orig) with
      | [o] => .bijective o x0.recomp (sroEq o x0.recomp)
      | origs => .nonBijective origs x0.recomp

/-! ### Basic lemmas about the data model -/

theorem sroEq_iff (a b : StackRegisterOffset) :
    sroEq a b = true ↔ a.register = b.register ∧ a.offset = b.offset := by
  simp [sroEq]

theorem sroEq_refl (a : StackRegisterOffset) : sroEq a a = true := by
  simp [sroEq]

theorem sroEq_symm {a b : StackRegisterOffset} (h : sroEq a b = true) :
    sroEq b a = true := by
  rw [sroEq_iff] at h ⊢
  exact ⟨h.1.symm, h.2.symm⟩

theorem sroEq_trans {a b c : StackRegisterOffset} (h1 : sroEq a b = true)
    (h2 : sroEq b c = true) : sroEq a c = true := by
  rw [sroEq_iff] at h1 h2 ⊢
  exact ⟨h1.1.trans h2.1, h1.2.trans h2.2⟩

theorem copy_eq (x : StackRegisterOffset) : x.copy = x := rfl

theorem mem_addPair {l : List StackPair} {p q : StackPair}
    (h : q ∈ addPair l p) : q ∈ l ∨ q = p := by
  unfold addPair at h
  split at h
  · exact Or.inl h
  · rcases List.mem_append.1 h with h' | h'
    · exact Or.inl h'
    · exact Or.inr (List.mem_singleton.1 h')

theorem unionPairs_nil (a : List StackPair) : unionPairs a [] = a := rfl

theorem mergeW_init_left (v : Warnings) : mergeW Warnings.init v = v := by
  obtain ⟨a, b⟩ := v
  simp [mergeW, Warnings.init]

theorem mergeW_init_right (w : Warnings) : mergeW w Warnings.init = w := by
  obtain ⟨a, b⟩ := w
  simp [mergeW, Warnings.init]

theorem mergeW_assoc (w v u : Warnings) :
    mergeW (mergeW w v) u = mergeW w (mergeW v u) := by
  obtain ⟨a, b⟩ := w; obtain ⟨c, d⟩ := v; obtain ⟨e, f⟩ := u
  simp [mergeW, Bool.or_assoc]

theorem mergeW_idem_pattern (w v u : Warnings) :
    mergeW (mergeW (mergeW (mergeW w v) u) v) u = mergeW (mergeW w v) u := by
  obtain ⟨a, b⟩ := w; obtain ⟨c, d⟩ := v; obtain ⟨e, f⟩ := u
  simp only [mergeW, Warnings.mk.injEq]
  constructor
  · cases a <;> cases c <;> cases e <;> rfl
  · cases b <;> cases d <;> cases f <;> rfl

/-! ### Lemmas about the reconciler -/

theorem mem_both_fold (lines : List (String × String × String)) :
    ∀ acc : List StackPair, (∀ q ∈ acc, q.orig = q.recomp) →
    ∀ p ∈ lines.foldl (fun acc line =>
        match extract_stack_offset_from_instruction line.2.1 with
        | some m => addPair acc ⟨m, m.copy⟩
        | none => acc) acc, p.orig = p.recomp := by
  induction lines with
  | nil => intro acc hacc p hp; exact hacc p hp
  | cons l ls ih =>
      intro acc hacc p hp
      rw [List.foldl_cons] at hp
      refine ih _ ?_ p hp
      intro q hq
      cases h : extract_stack_offset_from_instruction l.2.1 with
      | none => rw [h] at hq; exact hacc q hq
      | some m =>
          rw [h] at hq
          rcases mem_addPair hq with h' | h'
          · exact hacc q h'
          · subst h'; rfl

theorem analyze_divergent_lines_split
    (zs : List ((String × String) × (String × String))) :
    ∀ (acc : List StackPair) (w : Warnings),
    analyze_divergent_lines zs acc w =
      ((analyze_divergent_lines zs acc Warnings.init).1,
       mergeW w (analyze_divergent_lines zs acc Warnings.init).2) := by
  induction zs with
  | nil =>
      intro acc w
      simp [analyze_divergent_lines, mergeW_init_right]
  | cons z rest ih =>
      intro acc w
      obtain ⟨o, r⟩ := z
      cases h1 : extract_stack_offset_from_instruction o.2 with
      | none =>
          simp only [analyze_divergent_lines, h1]
          exact ih acc w
      | some m =>
          cases h2 : extract_stack_offset_from_instruction r.2 with
          | none =>
              obtain ⟨a, b⟩ := w
              simp [analyze_divergent_lines, h1, h2, mergeW, Warnings.init]
          | some rm =>
              simp only [analyze_divergent_lines, h1, h2]
              exact ih (addPair acc ⟨m, rm⟩) w

theorem analyze_diff_split (d : MatchingOrMismatchingBlock) (w : Warnings) :
    analyze_diff d w =
      ((analyze_diff d Warnings.init).1, mergeW w (analyze_diff d Warnings.init).2) := by
  cases d with
  | both lines =>
      simp [analyze_diff, mergeW_init_right]
  | mismatch o r =>
      by_cases h : o.length = r.length
      · simp only [analyze_diff, h, ne_eq, not_true_eq_false, if_false]
        exact analyze_divergent_lines_split (o.zip r) [] w
      · obtain ⟨a, b⟩ := w
        simp [analyze_diff, h, mergeW, Warnings.init]

theorem collect_stack_pairs_split (rs : List MatchingOrMismatchingBlock) :
    ∀ (acc : List StackPair) (w : Warnings),
    collect_stack_pairs rs acc w =
      ((collect_stack_pairs rs acc Warnings.init).1,
       mergeW w (collect_stack_pairs rs acc Warnings.init).2) := by
  induction rs with
  | nil =>
      intro acc w
      simp [collect_stack_pairs, mergeW_init_right]
  | cons d rest ih =>
      intro acc w
      simp only [collect_stack_pairs]
      rw [analyze_diff_split d w, analyze_diff_split d Warnings.init, mergeW_init_left]
      simp only
      rw [ih (unionPairs acc (analyze_diff d Warnings.init).1) (mergeW w (analyze_diff d Warnings.init).2),
          ih (unionPairs acc (analyze_diff d Warnings.init).1) (analyze_diff d Warnings.init).2,
          mergeW_assoc]

/-- Abort of an equal-length divergent region: as soon as some position
has an original-side extraction but no recomp-side one, the whole region
is dropped and the structural-mismatch flag is raised. -/
theorem analyze_divergent_lines_abort
    (zs : List ((String × String) × (String × String))) :
    ∀ (j : Nat) (o r : String × String) (m : StackRegisterOffset)
      (acc : List StackPair) (w : Warnings),
    zs.get? j = some (o, r) →
    extract_stack_offset_from_instruction o.2 = some m →
    extract_stack_offset_from_instruction r.2 = none →
    analyze_divergent_lines zs acc w =
      ([], { w with structural_mismatches_present := true }) := by
  induction zs with
  | nil => intro j o r m acc w hj; simp at hj
  | cons z rest ih =>
      intro j o r m acc w hj ho hr
      obtain ⟨o', r'⟩ := z
      cases j with
      | zero =>
          simp only [List.get?_cons_zero, Option.some.injEq] at hj
          obtain ⟨ho', hr'⟩ := Prod.mk.injEq .. ▸ hj
          subst ho'; subst hr'
          simp [analyze_divergent_lines, ho, hr]
      | succ j' =>
          simp only [List.get?_cons_succ] at hj
          cases h1 : extract_stack_offset_from_instruction o'.2 with
          | none =>
              simp only [analyze_divergent_lines, h1]
              exact ih j' o r m acc w hj ho hr
          | some m' =>
              cases h2 : extract_stack_offset_from_instruction r'.2 with
              | none => simp [analyze_divergent_lines, h1, h2]
              | some rm =>
                  simp only [analyze_divergent_lines, h1, h2]
                  exact ih j' o r m (addPair acc ⟨m', rm⟩) w hj ho hr

/-- A region contributing no pairs can be dropped from the collection
loop without changing the collected pair set. -/
theorem collect_fst_skip (D : MatchingOrMismatchingBlock)
    (hD : (analyze_diff D Warnings.init).1 = [])
    (pre : List MatchingOrMismatchingBlock) :
    ∀ (post : List MatchingOrMismatchingBlock) (acc : List StackPair) (w : Warnings),
    (collect_stack_pairs (pre ++ D :: post) acc w).1 =
      (collect_stack_pairs (pre ++ post) acc w).1 := by
  induction pre with
  | nil =>
      intro post acc w
      simp only [List.nil_append, collect_stack_pairs]
      rw [analyze_diff_split D w, hD]
      simp only [unionPairs_nil]
      rw [collect_stack_pairs_split post acc (mergeW w (analyze_diff D Warnings.init).2),
          collect_stack_pairs_split post acc w]
  | cons d pre' ih =>
      intro post acc w
      simp only [List.cons_append, collect_stack_pairs]
      exact ih post (unionPairs acc (analyze_diff d w).1) (analyze_diff d w).2

/-- Once some region raises the structural-mismatch flag, it is set in
the final warnings of the collection loop. -/
theorem collect_structural_of_mem (rs : List MatchingOrMismatchingBlock)
    (D : MatchingOrMismatchingBlock)
    (hD : (analyze_diff D Warnings.init).2.structural_mismatches_present = true) :
    ∀ (acc : List StackPair) (w : Warnings), D ∈ rs →
    (collect_stack_pairs rs acc w).2.structural_mismatches_present = true := by
  induction rs with
  | nil => intro acc w h; simp at h
  | cons d rest ih =>
      intro acc w hmem
      simp only [collect_stack_pairs]
      rcases List.mem_cons.1 hmem with h | h
      · subst h
        rw [collect_stack_pairs_split rest (unionPairs acc (analyze_diff D w).1)
              (analyze_diff D w).2]
        rw [analyze_diff_split D w]
        simp [mergeW, hD]
      · exact ih (unionPairs acc (analyze_diff d w).1) (analyze_diff d w).2 h

/-! ### Lemmas about the report views -/

theorem origLoop_split (pairs : List StackPair) (offs : List Int) :
    ∀ w : Warnings,
    origLoop pairs offs w =
      ((origLoop pairs offs Warnings.init).1,
       mergeW w (origLoop pairs offs Warnings.init).2) := by
  induction offs with
  | nil =>
      intro w
      simp [origLoop, mergeW_init_right]
  | cons off rest ih =>
      intro w
      cases h : pairs.find? (fun x => x.orig.offset == off) with
      | none =>
          simp only [origLoop, h]
          exact ih w
      | some x0 =>
          cases hr : (pairs.filter (fun x => sroEq x.orig x0.orig)).map (fun x => x.recomp) with
          | nil =>
              simp only [origLoop, h, hr]
              rw [ih { w with error_map_not_bijective := true },
                  ih { Warnings.init with error_map_not_bijective := true }]
              obtain ⟨a, b⟩ := w
              simp [mergeW, Warnings.init]
          | cons r rs =>
              cases rs with
              | nil =>
                  simp only [origLoop, h, hr]
                  rw [ih w]
              | cons r2 rs2 =>
                  simp only [origLoop, h, hr]
                  rw [ih { w with error_map_not_bijective := true },
                      ih { Warnings.init with error_map_not_bijective := true }]
                  obtain ⟨a, b⟩ := w
                  simp [mergeW, Warnings.init]

theorem recompLoop_split (pairs : List StackPair)
    (stack_symbols : List (Int × StackSymbol)) (offs : List Int) :
    ∀ w : Warnings,
    recompLoop pairs stack_symbols offs w =
      ((recompLoop pairs stack_symbols offs Warnings.init).1,
       mergeW w (recompLoop pairs stack_symbols offs Warnings.init).2) := by
  induction offs with
  | nil =>
      intro w
      simp [recompLoop, mergeW_init_right]
  | cons off rest ih =>
      intro w
      cases h : pairs.find? (fun x => x.recomp.offset == off) with
      | none =>
          simp only [recompLoop, h]
          rw [ih w]
      | some x0 =>
          cases hr : (pairs.filter (fun x => sroEq x.recomp x0.recomp)).map (fun x => x.orig) with
          | nil =>
              simp only [recompLoop, h, hr]
              rw [ih { w with error_map_not_bijective := true },
                  ih { Warnings.init with error_map_not_bijective := true }]
              obtain ⟨a, b⟩ := w
              simp [mergeW, Warnings.init]
          | cons r rs =>
              cases rs with
              | nil =>
                  simp only [recompLoop, h, hr]
                  rw [ih w]
              | cons r2 rs2 =>
                  simp only [recompLoop, h, hr]
                  rw [ih { w with error_map_not_bijective := true },
                      ih { Warnings.init with error_map_not_bijective := true }]
                  obtain ⟨a, b⟩ := w
                  simp [mergeW, Warnings.init]

theorem origLoop_fst (pairs : List StackPair) (offs : List Int) :
    ∀ w : Warnings,
    (origLoop pairs offs w).1 = offs.filterMap (origEntryAt pairs) := by
  induction offs with
  | nil => intro w; simp [origLoop]
  | cons off rest ih =>
      intro w
      cases h : pairs.find? (fun x => x.orig.offset == off) with
      | none =>
          simp only [origLoop, h, List.filterMap_cons, origEntryAt]
          exact ih w
      | some x0 =>
          cases hr : (pairs.filter (fun x => sroEq x.orig x0.orig)).map (fun x => x.recomp) with
          | nil =>
              simp only [origLoop, h, hr, List.filterMap_cons, origEntryAt]
              rw [ih { w with error_map_not_bijective := true }]
          | cons r rs =>
              cases rs with
              | nil =>
                  simp only [origLoop, h, hr, List.filterMap_cons, origEntryAt]
                  rw [ih w]
              | cons r2 rs2 =>
                  simp only [origLoop, h, hr, List.filterMap_cons, origEntryAt]
                  rw [ih { w with error_map_not_bijective := true }]

theorem recompLoop_fst (pairs : List StackPair)
    (stack_symbols : List (Int × StackSymbol)) (offs : List Int) :
    ∀ w : Warnings,
    (recompLoop pairs stack_symbols offs w).1 =
      offs.map (recompEntryAt pairs stack_symbols) := by
  induction offs with
  | nil => intro w; simp [recompLoop]
  | cons off rest ih =>
      intro w
      cases h : pairs.find? (fun x => x.recomp.offset == off) with
      | none =>
          simp only [recompLoop, h, List.map_cons, recompEntryAt]
          rw [ih w]
      | some x0 =>
          cases hr : (pairs.filter (fun x => sroEq x.recomp x0.recomp)).map (fun x => x.orig) with
          | nil =>
              simp only [recompLoop, h, hr, List.map_cons, recompEntryAt]
              rw [ih { w with error_map_not_bijective := true }]
          | cons r rs =>
              cases rs with
              | nil =>
                  simp only [recompLoop, h, hr, List.map_cons, recompEntryAt]
                  rw [ih w]
              | cons r2 rs2 =>
                  simp only [recompLoop, h, hr, List.map_cons, recompEntryAt]
                  rw [ih { w with error_map_not_bijective := true }]

theorem mem_insertSorted {x y : Int} {l : List Int} :
    y ∈ insertSorted x l ↔ y = x ∨ y ∈ l := by
  induction l with
  | nil => simp [insertSorted]
  | cons z zs ih =>
      simp only [insertSorted]
      split
      · simp
      · simp only [List.mem_cons, ih]
        tauto

theorem mem_sortInts {y : Int} {l : List Int} : y ∈ sortInts l ↔ y ∈ l := by
  induction l with
  | nil => simp [sortInts]
  | cons x xs ih =>
      simp only [sortInts, List.foldr_cons] at *
      rw [mem_insertSorted, ih, List.mem_cons]

theorem length_insertSorted (x : Int) (l : List Int) :
    (insertSorted x l).length = l.length + 1 := by
  induction l with
  | nil => rfl
  | cons z zs ih =>
      simp only [insertSorted]
      split
      · rfl
      · simp [ih]

theorem length_sortInts (l : List Int) : (sortInts l).length = l.length := by
  induction l with
  | nil => rfl
  | cons x xs ih =>
      simp only [sortInts, List.foldr_cons] at *
      rw [length_insertSorted, ih, List.length_cons]

theorem mem_dedupInts {y : Int} {l : List Int} : y ∈ dedupInts l ↔ y ∈ l := by
  induction l with
  | nil => simp [dedupInts]
  | cons x xs ih =>
      simp only [dedupInts]
      split
      · rename_i hx
        rw [ih, List.mem_cons]
        constructor
        · exact Or.inr
        · rintro (rfl | h)
          · exact hx
          · exact h
      · rw [List.mem_cons, ih, List.mem_cons]

/-- Every distinct original-side offset yields exactly one report line in
the by-original view. -/
theorem origLoop_length (pairs : List StackPair) (offs : List Int)
    (h : ∀ off ∈ offs, ∃ p ∈ pairs, p.orig.offset = off) (w : Warnings) :
    (origLoop pairs offs w).1.length = offs.length := by
  rw [origLoop_fst]
  induction offs with
  | nil => rfl
  | cons off rest ih =>
      obtain ⟨p, hp, hoff⟩ := h off (List.mem_cons_self off rest)
      have hfind : (pairs.find? (fun x => x.orig.offset == off)).isSome := by
        rw [List.find?_isSome]
        exact ⟨p, hp, by simp [hoff]⟩
      cases hf : pairs.find? (fun x => x.orig.offset == off) with
      | none => rw [hf] at hfind; simp at hfind
      | some x0 =>
          cases he : origEntryAt pairs off with
          | none =>
              exfalso
              simp only [origEntryAt, hf] at he
              cases hr : (pairs.filter (fun x => sroEq x.orig x0.orig)).map (fun x => x.recomp) with
              | nil => rw [hr] at he; simp at he
              | cons r rs => cases rs with
                | nil => rw [hr] at he; simp at he
                | cons r2 rs2 => rw [hr] at he; simp at he
          | some e =>
              simp only [List.filterMap_cons, he, List.length_cons]
              rw [ih (fun o ho => h o (List.mem_cons_of_mem off ho))]

/-- A non-bijective entry at some reported offset forces the
map-not-bijective flag in the final warnings of the by-original loop. -/
theorem origLoop_error_of_nonBij (pairs : List StackPair) (offs : List Int)
    (off : Int) (o : StackRegisterOffset) (rs : List StackRegisterOffset) :
    ∀ w : Warnings, off ∈ offs →
    origEntryAt pairs off = some (.nonBijective o rs) →
    (origLoop pairs offs w).2.error_map_not_bijective = true := by
  induction offs with
  | nil => intro w h; simp at h
  | cons off' rest ih =>
      intro w hmem hentry
      rcases List.mem_cons.1 hmem with h | h
      · subst h
        cases hf : pairs.find? (fun x => x.orig.offset == off) with
        | none => simp [origEntryAt, hf] at hentry
        | some x0 =>
            simp only [origEntryAt, hf] at hentry
            cases hr : (pairs.filter (fun x => sroEq x.orig x0.orig)).map (fun x => x.recomp) with
            | nil =>
                simp only [origLoop, hf, hr]
                rw [origLoop_split pairs rest { w with error_map_not_bijective := true }]
                simp [mergeW]
            | cons r rs' =>
                cases rs' with
                | nil => rw [hr] at hentry; simp at hentry
                | cons r2 rs2 =>
                    simp only [origLoop, hf, hr]
                    rw [origLoop_split pairs rest { w with error_map_not_bijective := true }]
                    simp [mergeW]
      · cases hf : pairs.find? (fun x => x.orig.offset == off') with
        | none =>
            simp only [origLoop, hf]
            exact ih w h hentry
        | some x0 =>
            cases hr : (pairs.filter (fun x => sroEq x.orig x0.orig)).map (fun x => x.recomp) with
            | nil =>
                simp only [origLoop, hf, hr]
                exact ih { w with error_map_not_bijective := true } h hentry
            | cons r rs' =>
                cases rs' with
                | nil =>
                    simp only [origLoop, hf, hr]
                    exact ih w h hentry
                | cons r2 rs2 =>
                    simp only [origLoop, hf, hr]
                    exact ih { w with error_map_not_bijective := true } h hentry

theorem print_by_original_stack_split (pairs : List StackPair) (w : Warnings) :
    print_by_original_stack pairs w =
      ((print_by_original_stack pairs Warnings.init).1,
       mergeW w (print_by_original_stack pairs Warnings.init).2) := by
  unfold print_by_original_stack
  exact origLoop_split pairs _ w

theorem print_by_recomp_stack_split (pairs : List StackPair)
    (stack_symbols : List (Int × StackSymbol)) (w : Warnings) :
    print_by_recomp_stack pairs stack_symbols w =
      ((print_by_recomp_stack pairs stack_symbols Warnings.init).1,
       mergeW w (print_by_recomp_stack pairs stack_symbols Warnings.init).2) := by
  unfold print_by_recomp_stack
  exact recompLoop_split pairs stack_symbols _ w

theorem classifier_reporter_split (pairs : List StackPair)
    (stack_symbols : List (Int × StackSymbol)) (w : Warnings) :
    classifier_reporter pairs stack_symbols w =
      (⟨(print_by_original_stack pairs Warnings.init).1,
        (print_by_recomp_stack pairs stack_symbols Warnings.init).1,
        print_footer (mergeW (mergeW w (print_by_original_stack pairs Warnings.init).2)
          (print_by_recomp_stack pairs stack_symbols Warnings.init).2)⟩,
       mergeW (mergeW w (print_by_original_stack pairs Warnings.init).2)
         (print_by_recomp_stack pairs stack_symbols Warnings.init).2) := by
  unfold classifier_reporter
  rw [print_by_original_stack_split pairs w]
  simp only
  rw [print_by_recomp_stack_split pairs stack_symbols
        (mergeW w (print_by_original_stack pairs Warnings.init).2)]

/-! ### Lemmas about the extractor -/

theorem matchStackEntry_shape {cs : List Char} {m : StackRegisterOffset}
    (h : matchStackEntry cs = some m) :
    List.isPrefixOf ['e', 'b', 'p'] cs = true ∨
    List.isPrefixOf ['e', 's', 'p'] cs = true := by
  rcases cs with _ | ⟨c1, _ | ⟨c2, _ | ⟨c3, _ | ⟨c4, _ | ⟨c5, _ | ⟨c6, rest⟩⟩⟩⟩⟩⟩ <;>
    simp only [matchStackEntry] at h
  · exact absurd h (by simp)
  · exact absurd h (by simp)
  · exact absurd h (by simp)
  · exact absurd h (by simp)
  · exact absurd h (by simp)
  · exact absurd h (by simp)
  · split at h
    · rename_i hguard
      simp only [Bool.and_eq_true, Bool.or_eq_true, beq_iff_eq] at hguard
      obtain ⟨⟨⟨⟨⟨h1, h2⟩, h3⟩, _⟩, _⟩, _⟩ := hguard
      subst h1; subst h3
      rcases h2 with h2 | h2 <;> subst h2
      · right; simp [List.isPrefixOf]
      · left; simp [List.isPrefixOf]
    · exact absurd h (by simp)

theorem searchStackEntry_mentions (cs : List Char) :
    ∀ m : StackRegisterOffset, searchStackEntry cs = some m →
    hasSubstring ['e', 'b', 'p'] cs = true ∨
    hasSubstring ['e', 's', 'p'] cs = true := by
  induction cs with
  | nil => intro m h; simp [searchStackEntry] at h
  | cons c rest ih =>
      intro m h
      simp only [searchStackEntry] at h
      cases hm : matchStackEntry (c :: rest) with
      | some m' =>
          rcases matchStackEntry_shape hm with hp | hp
          · left; simp [hasSubstring, hp]
          · right; simp [hasSubstring, hp]
      | none =>
          rw [hm] at h
          rcases ih m h with h' | h'
          · left; simp [hasSubstring, h']
          · right; simp [hasSubstring, h']

theorem recompEntryAt_unseen (pairs : List StackPair)
    (stack_symbols : List (Int × StackSymbol)) (off : Int)
    (h : pairs.find? (fun x => x.recomp.offset == off) = none) :
    recompEntryAt pairs stack_symbols off =
      .unseen ⟨"ebp", off, lookupSym stack_symbols off⟩ := by
  simp [recompEntryAt, h]

/-! ### Claim theorems -/

/-- C1 (counterexample): in the diff data model, a line of an Aligned
region carries one shared instruction text; feeding the region built
from the original line `mov eax, [ebp - 0x8]`, the reconciler yields a
single correspondence whose two sides are equal (offset `-0x8` on both),
and the by-original view classifies it as exact (icon flag `true`), not
reordered — so no correspondence with differing offsets arises. -/
theorem claim_C1_counterexample :
    (analyze_diff (.both [("0x1001", "mov eax, [ebp - 0x8]", "0x2001")])
        Warnings.init).1 =
      [⟨⟨"ebp", -8, none⟩, ⟨"ebp", -8, none⟩⟩] ∧
    (print_by_original_stack [⟨⟨"ebp", -8, none⟩, ⟨"ebp", -8, none⟩⟩]
        Warnings.init).1 =
      [.bijective ⟨"ebp", -8, none⟩ ⟨"ebp", -8, none⟩ true] := by
  decide

/-- C1 (amended): an Aligned region containing the line
`mov eax, [ebp - 0x8]` yields exactly one correspondence whose two sides
are identical copies of the extracted reference, and the classifier
classifies it as exact.  No warning flag changes. -/
theorem claim_C1_theorem :
    analyze_diff (.both [("0x1001", "mov eax, [ebp - 0x8]", "0x2001")])
        Warnings.init =
      ([⟨⟨"ebp", -8, none⟩, ⟨"ebp", -8, none⟩⟩], Warnings.init) ∧
    print_by_original_stack [⟨⟨"ebp", -8, none⟩, ⟨"ebp", -8, none⟩⟩]
        Warnings.init =
      ([.bijective ⟨"ebp", -8, none⟩ ⟨"ebp", -8, none⟩ true], Warnings.init) := by
  decide

/-- C2: every correspondence produced from an Aligned ("both") diff
region pairs the reference extracted from the one shared instruction
text with a copy of itself, so its original side equals its recomp side
(same register, offset, and even symbol). -/
theorem claim_C2_theorem (lines : List (String × String × String)) (w : Warnings)
    (p : StackPair) (hp : p ∈ (analyze_diff (.both lines) w).1) :
    p.orig = p.recomp := by
  have hp' : p ∈ lines.foldl (fun acc line =>
      match extract_stack_offset_from_instruction line.2.1 with
      | some m => addPair acc ⟨m, m.copy⟩
      | none => acc) [] := by
    simpa [analyze_diff] using hp
  exact mem_both_fold lines [] (by intro q hq; simp at hq) p hp'

/-- C2 witness: a concrete aligned region whose single produced pair has
equal sides. -/
theorem claim_C2_witness :
    (⟨⟨"ebp", -8, none⟩, ⟨"ebp", -8, none⟩⟩ : StackPair) ∈
      (analyze_diff (.both [("0x1", "mov eax, [ebp - 0x8]", "0x2")])
        Warnings.init).1 ∧
    (⟨⟨"ebp", -8, none⟩, ⟨"ebp", -8, none⟩⟩ : StackPair).orig =
      (⟨⟨"ebp", -8, none⟩, ⟨"ebp", -8, none⟩⟩ : StackPair).recomp :=
  ⟨by decide, claim_C2_theorem [("0x1", "mov eax, [ebp - 0x8]", "0x2")]
    Warnings.init ⟨⟨"ebp", -8, none⟩, ⟨"ebp", -8, none⟩⟩ (by decide)⟩

/-- C3 (counterexample): the by-original view groups by integer offset
only and `next(...)` may pick a reference of another register sharing
the offset, so a correspondence set containing two pairs with the same
original-side reference (`ebp - 0x4`) mapped to two distinct recomp-side
references does NOT necessarily set the map-not-bijective flag: here an
`esp - 0x4` pair is found first, the view prints only its bijective
entry, and the flag stays `false`. -/
theorem claim_C3_counterexample :
    sroEq (⟨⟨"ebp", -4, none⟩, ⟨"ebp", -4, none⟩⟩ : StackPair).orig
        (⟨⟨"ebp", -4, none⟩, ⟨"ebp", -8, none⟩⟩ : StackPair).orig = true ∧
    sroEq (⟨⟨"ebp", -4, none⟩, ⟨"ebp", -4, none⟩⟩ : StackPair).recomp
        (⟨⟨"ebp", -4, none⟩, ⟨"ebp", -8, none⟩⟩ : StackPair).recomp = false ∧
    (print_by_original_stack
        [⟨⟨"esp", -4, none⟩, ⟨"esp", -4, none⟩⟩,
         ⟨⟨"ebp", -4, none⟩, ⟨"ebp", -4, none⟩⟩,
         ⟨⟨"ebp", -4, none⟩, ⟨"ebp", -8, none⟩⟩]
        Warnings.init).2.error_map_not_bijective = false ∧
    (print_by_original_stack
        [⟨⟨"esp", -4, none⟩, ⟨"esp", -4, none⟩⟩,
         ⟨⟨"ebp", -4, none⟩, ⟨"ebp", -4, none⟩⟩,
         ⟨⟨"ebp", -4, none⟩, ⟨"ebp", -8, none⟩⟩]
        Warnings.init).1 =
      [.bijective ⟨"esp", -4, none⟩ ⟨"esp", -4, none⟩ true] := by
  decide

/-- C3 (amended): if the correspondence set contains two pairs with the
same original-side reference mapped to two distinct recomp-side
references, and no original-side reference of another register shares
that offset, then the by-original view raises the map-not-bijective flag
and emits a non-bijective entry listing the recomp-side candidates of
every pair with that original reference. -/
theorem claim_C3_theorem (pairs : List StackPair) (w : Warnings)
    (p1 p2 : StackPair) (hp1 : p1 ∈ pairs) (hp2 : p2 ∈ pairs)
    (hsame : sroEq p1.orig p2.orig = true)
    (hdiff : sroEq p1.recomp p2.recomp = false)
    (hnocross : pairs.all
      (fun q => !(q.orig.offset == p1.orig.offset) || sroEq q.orig p1.orig) = true) :
    (print_by_original_stack pairs w).2.error_map_not_bijective = true ∧
    ∃ o rs, OrigReportEntry.nonBijective o rs ∈ (print_by_original_stack pairs w).1 ∧
      sroEq o p1.orig = true ∧
      ∀ q ∈ pairs, sroEq q.orig p1.orig = true → q.recomp ∈ rs := by
  have hnc : ∀ q ∈ pairs, q.orig.offset = p1.orig.offset →
      sroEq q.orig p1.orig = true := by
    intro q hq hoff
    have := List.all_eq_true.1 hnocross q hq
    simpa [hoff] using this
  have hoffmem : p1.orig.offset ∈
      sortInts (dedupInts (pairs.map (fun x => x.orig.offset))) :=
    mem_sortInts.2 (mem_dedupInts.2 (List.mem_map_of_mem _ hp1))
  cases hf : pairs.find? (fun x => x.orig.offset == p1.orig.offset) with
  | none =>
      exact absurd (by simp : ((fun x => x.orig.offset == p1.orig.offset) p1) = true)
        (by simpa using List.find?_eq_none.1 hf p1 hp1)
  | some x0 =>
      have hx0mem : x0 ∈ pairs := List.mem_of_find?_eq_some hf
      have hx0off : x0.orig.offset = p1.orig.offset := by
        have := List.find?_some hf
        simpa using this
      have hx0eq : sroEq x0.orig p1.orig = true := hnc x0 hx0mem hx0off
      have hp1in : p1.recomp ∈
          (pairs.filter (fun x => sroEq x.orig x0.orig)).map (fun x => x.recomp) :=
        List.mem_map_of_mem _ (List.mem_filter.2 ⟨hp1, sroEq_symm hx0eq⟩)
      have hp2in : p2.recomp ∈
          (pairs.filter (fun x => sroEq x.orig x0.orig)).map (fun x => x.recomp) :=
        List.mem_map_of_mem _ (List.mem_filter.2
          ⟨hp2, sroEq_trans (sroEq_symm hsame) (sroEq_symm hx0eq)⟩)
      cases hr : (pairs.filter (fun x => sroEq x.orig x0.orig)).map (fun x => x.recomp) with
      | nil => rw [hr] at hp1in; simp at hp1in
      | cons r rs' =>
          cases rs' with
          | nil =>
              exfalso
              rw [hr] at hp1in hp2in
              simp only [List.mem_singleton] at hp1in hp2in
              rw [hp1in, hp2in, sroEq_refl] at hdiff
              exact absurd hdiff (by simp)
          | cons r2 rs2 =>
              have he : origEntryAt pairs p1.orig.offset =
                  some (.nonBijective x0.orig (r :: r2 :: rs2)) := by
                simp only [origEntryAt, hf, hr]
              refine ⟨?_, x0.orig, r :: r2 :: rs2, ?_, hx0eq, ?_⟩
              · show (origLoop pairs _ w).2.error_map_not_bijective = true
                exact origLoop_error_of_nonBij pairs _ p1.orig.offset x0.orig
                  (r :: r2 :: rs2) w hoffmem he
              · show OrigReportEntry.nonBijective x0.orig (r :: r2 :: rs2) ∈
                  (origLoop pairs _ w).1
                rw [origLoop_fst]
                exact List.mem_filterMap.2 ⟨p1.orig.offset, hoffmem, he⟩
              · intro q hq hqeq
                rw [← hr]
                exact List.mem_map_of_mem _ (List.mem_filter.2
                  ⟨hq, sroEq_trans hqeq (sroEq_symm hx0eq)⟩)

/-- C3 witness: the spec's own example set
`{(ebp-0x4 → ebp-0x4), (ebp-0x4 → ebp-0x8)}` (no cross-register
collision) raises the flag and reports both candidates. -/
theorem claim_C3_witness :
    (print_by_original_stack
        [⟨⟨"ebp", -4, none⟩, ⟨"ebp", -4, none⟩⟩,
         ⟨⟨"ebp", -4, none⟩, ⟨"ebp", -8, none⟩⟩]
        Warnings.init).2.error_map_not_bijective = true ∧
    ∃ o rs, OrigReportEntry.nonBijective o rs ∈
        (print_by_original_stack
          [⟨⟨"ebp", -4, none⟩, ⟨"ebp", -4, none⟩⟩,
           ⟨⟨"ebp", -4, none⟩, ⟨"ebp", -8, none⟩⟩]
          Warnings.init).1 ∧
      sroEq o (⟨⟨"ebp", -4, none⟩, ⟨"ebp", -4, none⟩⟩ : StackPair).orig = true ∧
      ∀ q ∈ [(⟨⟨"ebp", -4, none⟩, ⟨"ebp", -4, none⟩⟩ : StackPair),
             ⟨⟨"ebp", -4, none⟩, ⟨"ebp", -8, none⟩⟩],
        sroEq q.orig (⟨⟨"ebp", -4, none⟩, ⟨"ebp", -4, none⟩⟩ : StackPair).orig = true →
        q.recomp ∈ rs :=
  claim_C3_theorem
    [⟨⟨"ebp", -4, none⟩, ⟨"ebp", -4, none⟩⟩,
     ⟨⟨"ebp", -4, none⟩, ⟨"ebp", -8, none⟩⟩]
    Warnings.init
    ⟨⟨"ebp", -4, none⟩, ⟨"ebp", -4, none⟩⟩
    ⟨⟨"ebp", -4, none⟩, ⟨"ebp", -8, none⟩⟩
    (by decide) (by decide) (by decide) (by decide) (by decide)

/-- C4: a Divergent region with unequal side lengths yields zero
correspondences and raises the structural-mismatch flag, and the pair
sets contributed by the sibling regions of the same function are
unchanged — the function-level collection proceeds as if the bad region
were absent, with the flag set in the final warnings. -/
theorem claim_C4_theorem (pre post : List MatchingOrMismatchingBlock)
    (origL recompL : List (String × String)) (acc : List StackPair)
    (w : Warnings) (h : origL.length ≠ recompL.length) :
    analyze_diff (.mismatch origL recompL) w =
      ([], { w with structural_mismatches_present := true }) ∧
    (collect_stack_pairs (pre ++ .mismatch origL recompL :: post) acc w).1 =
      (collect_stack_pairs (pre ++ post) acc w).1 ∧
    Warnings.structural_mismatches_present
      (collect_stack_pairs (pre ++ .mismatch origL recompL :: post) acc w).2 = true := by
  have habort : ∀ w' : Warnings, analyze_diff (.mismatch origL recompL) w' =
      ([], { w' with structural_mismatches_present := true }) := by
    intro w'
    simp [analyze_diff, h]
  refine ⟨habort w, ?_, ?_⟩
  · exact collect_fst_skip _ (by rw [habort Warnings.init]) pre post acc w
  · refine collect_structural_of_mem _ _ ?_ acc w
      (List.mem_append.2 (Or.inr (List.mem_cons_self _ _)))
    rw [habort Warnings.init]

/-- C4 witness: the spec's example — a Divergent region of lengths 2 and
3 after an Aligned sibling region — contributes nothing, keeps the
sibling's correspondences, and sets the flag. -/
theorem claim_C4_witness :
    analyze_diff (.mismatch [("0x3", "push eax"), ("0x4", "push ebx")]
        [("0x5", "push eax"), ("0x6", "push ecx"), ("0x7", "push edx")])
      Warnings.init =
      ([], { Warnings.init with structural_mismatches_present := true }) ∧
    (collect_stack_pairs
        ([.both [("0x1", "mov eax, [ebp - 0x8]", "0x2")]] ++
          .mismatch [("0x3", "push eax"), ("0x4", "push ebx")]
            [("0x5", "push eax"), ("0x6", "push ecx"), ("0x7", "push edx")] :: [])
        [] Warnings.init).1 =
      (collect_stack_pairs ([.both [("0x1", "mov eax, [ebp - 0x8]", "0x2")]] ++ [])
        [] Warnings.init).1 ∧
    (collect_stack_pairs
        ([.both [("0x1", "mov eax, [ebp - 0x8]", "0x2")]] ++
          .mismatch [("0x3", "push eax"), ("0x4", "push ebx")]
            [("0x5", "push eax"), ("0x6", "push ecx"), ("0x7", "push edx")] :: [])
        [] Warnings.init).2.structural_mismatches_present = true :=
  claim_C4_theorem [.both [("0x1", "mov eax, [ebp - 0x8]", "0x2")]] []
    [("0x3", "push eax"), ("0x4", "push ebx")]
    [("0x5", "push eax"), ("0x6", "push ecx"), ("0x7", "push edx")]
    [] Warnings.init (by decide)

/-- C5: in an equal-length Divergent region, a position whose original
line extracts a reference while the same-position recomp line does not
makes the region contribute zero correspondences (the region is
abandoned wholesale) with the structural-mismatch flag raised, and the
remaining regions are still processed: the collected pair set equals the
one collected from the other regions alone. -/
theorem claim_C5_theorem (origL recompL : List (String × String)) (w : Warnings)
    (j : Nat) (o r : String × String) (m : StackRegisterOffset)
    (post : List MatchingOrMismatchingBlock) (acc : List StackPair)
    (hlen : origL.length = recompL.length)
    (hj : (origL.zip recompL).get? j = some (o, r))
    (ho : extract_stack_offset_from_instruction o.2 = some m)
    (hr : extract_stack_offset_from_instruction r.2 = none) :
    analyze_diff (.mismatch origL recompL) w =
      ([], { w with structural_mismatches_present := true }) ∧
    (collect_stack_pairs (.mismatch origL recompL :: post) acc w).1 =
      (collect_stack_pairs post acc w).1 ∧
    Warnings.structural_mismatches_present
      (collect_stack_pairs (.mismatch origL recompL :: post) acc w).2 = true := by
  have habort : ∀ w' : Warnings, analyze_diff (.mismatch origL recompL) w' =
      ([], { w' with structural_mismatches_present := true }) := by
    intro w'
    simp only [analyze_diff, hlen, ne_eq, not_true_eq_false, if_false]
    exact analyze_divergent_lines_abort (origL.zip recompL) j o r m [] w' hj ho hr
  refine ⟨habort w, ?_, ?_⟩
  · have := collect_fst_skip (.mismatch origL recompL)
      (by rw [habort Warnings.init]) [] post acc w
    simpa using this
  · refine collect_structural_of_mem _ _ ?_ acc w (List.mem_cons_self _ _)
    rw [habort Warnings.init]

/-- C5 witness: a one-line equal-length divergent region whose original
line references the stack but whose recomp line does not. -/
theorem claim_C5_witness :
    analyze_diff (.mismatch [("0x1", "mov eax, [ebp - 0x8]")]
        [("0x2", "mov eax, ecx")]) Warnings.init =
      ([], { Warnings.init with structural_mismatches_present := true }) ∧
    (collect_stack_pairs
        (.mismatch [("0x1", "mov eax, [ebp - 0x8]")] [("0x2", "mov eax, ecx")] ::
          [.both [("0x3", "mov ebx, [esp + 0x10]", "0x4")]])
        [] Warnings.init).1 =
      (collect_stack_pairs [.both [("0x3", "mov ebx, [esp + 0x10]", "0x4")]]
        [] Warnings.init).1 ∧
    (collect_stack_pairs
        (.mismatch [("0x1", "mov eax, [ebp - 0x8]")] [("0x2", "mov eax, ecx")] ::
          [.both [("0x3", "mov ebx, [esp + 0x10]", "0x4")]])
        [] Warnings.init).2.structural_mismatches_present = true :=
  claim_C5_theorem [("0x1", "mov eax, [ebp - 0x8]")] [("0x2", "mov eax, ecx")]
    Warnings.init 0 ("0x1", "mov eax, [ebp - 0x8]") ("0x2", "mov eax, ecx")
    ⟨"ebp", -8, none⟩ [.both [("0x3", "mov ebx, [esp + 0x10]", "0x4")]] []
    (by decide) (by decide) (by decide) (by decide)

/-- C6: a symbol-table entry keyed by an offset that appears on the
recomp side of no correspondence yields an "unseen" entry carrying that
symbol in the by-recomp view — it is never omitted. -/
theorem claim_C6_theorem (pairs : List StackPair)
    (stack_symbols : List (Int × StackSymbol)) (w : Warnings) (off : Int)
    (sym : StackSymbol) (hsym : lookupSym stack_symbols off = some sym)
    (hnone : pairs.all (fun p => !(p.recomp.offset == off)) = true) :
    RecompReportEntry.unseen ⟨"ebp", off, some sym⟩ ∈
      (print_by_recomp_stack pairs stack_symbols w).1 := by
  have hfind : pairs.find? (fun x => x.recomp.offset == off) = none := by
    rw [List.find?_eq_none]
    intro x hx
    have := List.all_eq_true.1 hnone x hx
    simpa using this
  have hkey : off ∈ stack_symbols.map (fun e => e.1) := by
    unfold lookupSym at hsym
    cases hfe : stack_symbols.find? (fun e => e.1 == off) with
    | none => rw [hfe] at hsym; simp at hsym
    | some e =>
        have he1 : e.1 = off := by
          have := List.find?_some hfe
          simpa using this
        exact he1 ▸ List.mem_map_of_mem _ (List.mem_of_find?_eq_some hfe)
  have hoffmem : off ∈ sortInts (dedupInts
      (pairs.map (fun x => x.recomp.offset) ++ stack_symbols.map (fun e => e.1))) :=
    mem_sortInts.2 (mem_dedupInts.2 (List.mem_append.2 (Or.inr hkey)))
  have hentry : recompEntryAt pairs stack_symbols off =
      .unseen ⟨"ebp", off, some sym⟩ := by
    rw [recompEntryAt_unseen pairs stack_symbols off hfind, hsym]
  show RecompReportEntry.unseen ⟨"ebp", off, some sym⟩ ∈
    (recompLoop pairs stack_symbols _ w).1
  rw [recompLoop_fst]
  exact List.mem_map.2 ⟨off, hoffmem, hentry⟩

/-- C6 witness: the spec's example — a frame-base symbol `m_flags` at
offset `-0x10` never diffed appears as an unseen entry. -/
theorem claim_C6_witness :
    RecompReportEntry.unseen ⟨"ebp", -16, some ⟨"m_flags", "int"⟩⟩ ∈
      (print_by_recomp_stack [] [(-16, ⟨"m_flags", "int"⟩)] Warnings.init).1 :=
  claim_C6_theorem [] [(-16, ⟨"m_flags", "int"⟩)] Warnings.init (-16)
    ⟨"m_flags", "int"⟩ (by decide) (by decide)

/-- C7: symbol enrichment never creates or removes correspondences — the
list of (orig, recomp) register/offset data is unchanged — the original
side of every pair is untouched, the recomp side keeps its register and
offset, and a pair whose recomp register is not frame-base (in
particular `esp`) is left entirely unchanged, so stack-pointer
references are never annotated. -/
theorem claim_C7_theorem (pairs : List StackPair)
    (stack_symbols : List (Int × StackSymbol)) (p : StackPair)
    (hreg : p.recomp.register ≠ "ebp") :
    (enrich_stack_pairs pairs stack_symbols).map pairData = pairs.map pairData ∧
    (∀ q : StackPair, (enrich_pair stack_symbols q).orig = q.orig ∧
      (enrich_pair stack_symbols q).recomp.register = q.recomp.register ∧
      (enrich_pair stack_symbols q).recomp.offset = q.recomp.offset) ∧
    enrich_pair stack_symbols p = p := by
  refine ⟨?_, ?_, ?_⟩
  · unfold enrich_stack_pairs
    rw [List.map_map]
    refine List.map_congr_left ?_
    intro q _
    show pairData (enrich_pair stack_symbols q) = pairData q
    unfold enrich_pair
    split <;> rfl
  · intro q
    unfold enrich_pair
    split <;> exact ⟨rfl, rfl, rfl⟩
  · unfold enrich_pair
    simp [hreg]

/-- C7 witness: an `esp`-side pair is unchanged even when the table has
a symbol at its offset. -/
theorem claim_C7_witness :
    (enrich_stack_pairs [⟨⟨"ebp", -4, none⟩, ⟨"esp", -4, none⟩⟩]
        [(-4, ⟨"m_x", "int"⟩)]).map pairData =
      [(⟨⟨"ebp", -4, none⟩, ⟨"esp", -4, none⟩⟩ : StackPair)].map pairData ∧
    (∀ q : StackPair,
      (enrich_pair [(-4, ⟨"m_x", "int"⟩)] q).orig = q.orig ∧
      (enrich_pair [(-4, ⟨"m_x", "int"⟩)] q).recomp.register = q.recomp.register ∧
      (enrich_pair [(-4, ⟨"m_x", "int"⟩)] q).recomp.offset = q.recomp.offset) ∧
    enrich_pair [(-4, ⟨"m_x", "int"⟩)]
        ⟨⟨"ebp", -4, none⟩, ⟨"esp", -4, none⟩⟩ =
      ⟨⟨"ebp", -4, none⟩, ⟨"esp", -4, none⟩⟩ :=
  claim_C7_theorem [⟨⟨"ebp", -4, none⟩, ⟨"esp", -4, none⟩⟩]
    [(-4, ⟨"m_x", "int"⟩)] ⟨⟨"ebp", -4, none⟩, ⟨"esp", -4, none⟩⟩ (by decide)

/-- C8: the extractor on a line containing `esp + 0x10` yields the
stack-pointer register with offset +16; on `ebp - 0x4` the frame-base
register with offset -4; on `ebp - 0x14abc` the full literal (-84668),
never a shorter prefix of it; and on any line mentioning neither `ebp`
nor `esp` (as substrings) it yields nothing. -/
theorem claim_C8_theorem (s : String)
    (h1 : hasSubstring "ebp".data s.data = false)
    (h2 : hasSubstring "esp".data s.data = false) :
    extract_stack_offset_from_instruction s = none ∧
    extract_stack_offset_from_instruction "mov eax, dword ptr [esp + 0x10]" =
      some ⟨"esp", 16, none⟩ ∧
    extract_stack_offset_from_instruction "mov eax, [ebp - 0x4]" =
      some ⟨"ebp", -4, none⟩ ∧
    extract_stack_offset_from_instruction "cmp ebx, [ebp - 0x14abc]" =
      some ⟨"ebp", -84668, none⟩ := by
  refine ⟨?_, by decide, by decide, by decide⟩
  cases hx : extract_stack_offset_from_instruction s with
  | none => rfl
  | some m =>
      exfalso
      have h1' : hasSubstring ['e', 'b', 'p'] s.data = false := h1
      have h2' : hasSubstring ['e', 's', 'p'] s.data = false := h2
      rcases searchStackEntry_mentions s.data m hx with h | h
      · rw [h] at h1'; exact absurd h1' (by simp)
      · rw [h] at h2'; exact absurd h2' (by simp)

/-- C8 witness: a register-to-register move mentions neither stack
register and extracts nothing. -/
theorem claim_C8_witness :
    extract_stack_offset_from_instruction "mov eax, ecx" = none ∧
    extract_stack_offset_from_instruction "mov eax, dword ptr [esp + 0x10]" =
      some ⟨"esp", 16, none⟩ ∧
    extract_stack_offset_from_instruction "mov eax, [ebp - 0x4]" =
      some ⟨"ebp", -4, none⟩ ∧
    extract_stack_offset_from_instruction "cmp ebx, [ebp - 0x14abc]" =
      some ⟨"ebp", -84668, none⟩ :=
  claim_C8_theorem "mov eax, ecx" (by decide) (by decide)

/-- C9: the classifier-and-reporter is idempotent — rerunning it on the
same correspondence set and symbol table, starting from the warnings it
produced, yields the identical report (both views and the footer) and
the identical warnings: the flags it sets are monotone, so the second
run changes nothing. -/
theorem claim_C9_theorem (pairs : List StackPair)
    (stack_symbols : List (Int × StackSymbol)) (w : Warnings) :
    classifier_reporter pairs stack_symbols
        (classifier_reporter pairs stack_symbols w).2 =
      classifier_reporter pairs stack_symbols w := by
  rw [classifier_reporter_split pairs stack_symbols w]
  rw [classifier_reporter_split pairs stack_symbols
      (mergeW (mergeW w (print_by_original_stack pairs Warnings.init).2)
        (print_by_recomp_stack pairs stack_symbols Warnings.init).2)]
  rw [mergeW_idem_pattern]

/-- C10: both report views enumerate entries by integer offset alone,
ignoring the register: each view has exactly one entry per distinct
offset; concretely, with original references `ebp - 4` and `esp - 4` in
the set, the by-original view prints a single entry for offset -4 (from
the first reference found) and the other register's pair is omitted, and
symmetrically for the by-recomp view. -/
theorem claim_C10_theorem :
    (∀ (pairs : List StackPair) (w : Warnings),
      (print_by_original_stack pairs w).1.length =
        (dedupInts (pairs.map (fun x => x.orig.offset))).length) ∧
    (∀ (pairs : List StackPair) (stack_symbols : List (Int × StackSymbol))
      (w : Warnings),
      (print_by_recomp_stack pairs stack_symbols w).1.length =
        (dedupInts (pairs.map (fun x => x.recomp.offset) ++
          stack_symbols.map (fun e => e.1))).length) ∧
    (print_by_original_stack
        [⟨⟨"ebp", -4, none⟩, ⟨"ebp", -4, none⟩⟩,
         ⟨⟨"esp", -4, none⟩, ⟨"esp", -8, none⟩⟩] Warnings.init).1 =
      [.bijective ⟨"ebp", -4, none⟩ ⟨"ebp", -4, none⟩ true] ∧
    (print_by_recomp_stack
        [⟨⟨"ebp", -4, none⟩, ⟨"ebp", -4, none⟩⟩,
         ⟨⟨"ebp", -8, none⟩, ⟨"esp", -4, none⟩⟩] [] Warnings.init).1 =
      [.bijective ⟨"ebp", -4, none⟩ ⟨"ebp", -4, none⟩ true] := by
  refine ⟨?_, ?_, by decide, by decide⟩
  · intro pairs w
    unfold print_by_original_stack
    rw [origLoop_length pairs _ ?_ w, length_sortInts]
    intro off hoff
    have : off ∈ pairs.map (fun x => x.orig.offset) :=
      mem_dedupInts.1 (mem_sortInts.1 hoff)
    obtain ⟨p, hp, hoffp⟩ := List.mem_map.1 this
    exact ⟨p, hp, hoffp⟩
  · intro pairs stack_symbols w
    unfold print_by_recomp_stack
    rw [recompLoop_fst, List.length_map, length_sortInts]

end Stackcmp
